import Mathlib

/-!
# Shallow embedding of the serde_db deserialization engine

The repository provides a shape-driven deserialization engine that converts
tabular database resultsets (rows of driver-native values plus shared column
metadata) into typed targets: scalars, tuples, named records, and sequences
thereof.  The crate's `src/de` module exposes the `DeserializableRow` trait
(`len`, `pop`, `last`, `get_fieldname`, `reverse_values`, `into_typed`); the
row/resultset deserializers and the two-tier error taxonomy are modelled from
the specification where their source is not available.
-/

/-- Modelled from the spec: a `Value` is a tagged union over the driver's
native scalar kinds (text, integers of various widths, boolean, null/absent).
The concrete driver value type (`DbValue` in `src/de/db_value.rs`) is missing
from the sources; this embedding realises the §3 data model with a small but
representative set of kinds, including a narrow and a wide integer so that
checked narrowing/widening (§4.1) is expressible. -/
inductive DbValue where
  | null : DbValue
  | int8 (n : Int) : DbValue
  | int64 (n : Int) : DbValue
  | text (s : String) : DbValue
  | boolean (b : Bool) : DbValue
deriving Repr, DecidableEq

/-- The scalar target categories a caller can request. -/
inductive ScalarTy where
  | tyInt8 : ScalarTy
  | tyInt64 : ScalarTy
  | tyText : ScalarTy
  | tyBool : ScalarTy
deriving Repr, DecidableEq

/-- A successfully converted scalar value. -/
inductive ScalarVal where
  | sInt8 (n : Int) : ScalarVal
  | sInt64 (n : Int) : ScalarVal
  | sText (s : String) : ScalarVal
  | sBool (b : Bool) : ScalarVal
deriving Repr, DecidableEq

/-- A scalar target type, either required (non-optional) or optional
(absent-capable), as in `Option<Decimal>` vs `Decimal` in the tests. -/
inductive FieldTy where
  | plain (t : ScalarTy) : FieldTy
  | opt (t : ScalarTy) : FieldTy
deriving Repr, DecidableEq

/-- The value of a converted field: a present scalar, or the empty state of an
optional target. -/
inductive FieldVal where
  | fv (v : ScalarVal) : FieldVal
  | fvNone : FieldVal
deriving Repr, DecidableEq

/-- Modelled from the spec: `ConversionError` (in the missing
`src/de/conversion_error.rs`) describes a failure converting one Value into
one requested scalar type — kinds `ValueOutOfRange`, `UnexpectedNull`,
`TypeMismatch`, `Other(description)` (§3). -/
inductive ConversionError where
  | valueOutOfRange : ConversionError
  | unexpectedNull : ConversionError
  | typeMismatch : ConversionError
  | other (description : String) : ConversionError
deriving Repr, DecidableEq

/-- Modelled from the spec: `DeserError` (in the missing
`src/de/deserialization_error.rs`) describes a structural failure of the
shape-driven engine — kinds `WrongArity`, `UnknownColumn`,
`UnsupportedShape`, and a variant wrapping `ConversionError` (§3). -/
inductive DeserError where
  | wrongArity : DeserError
  | unknownColumn (name : String) : DeserError
  | unsupportedShape : DeserError
  | conversionError (e : ConversionError) : DeserError
deriving Repr, DecidableEq

/-- The `From<ConversionError> for DeserError` conversion: wrapping a
value-level error into the engine-level error type. -/
def DeserError.fromConversionError (e : ConversionError) : DeserError :=
  DeserError.conversionError e

/-- Recovers the underlying value-level error from a `DeserError`, when the
error originated from a scalar conversion. -/
def DeserError.unwrapConversionError : DeserError → Option ConversionError
  | DeserError.conversionError e => some e
  | _ => none

/-- Lifts a scalar-conversion result across the engine boundary, wrapping any
`ConversionError` into a `DeserError` (the `From` conversion applied by `?`). -/
def wrapConv {α : Type} : Except ConversionError α → Except DeserError α
  | Except.ok a => Except.ok a
  | Except.error e => Except.error (DeserError.fromConversionError e)

/-- Modelled from the spec: the Value Conversion Layer (§4.1) for non-optional
scalar targets.  Null converting to a non-optional target is `UnexpectedNull`;
widening (int8 → int64) always succeeds; checked narrowing (int64 → int8)
fails with `ValueOutOfRange` when the value does not fit; mismatched
categories fail with `TypeMismatch`. -/
def convertPlain (t : ScalarTy) (v : DbValue) : Except ConversionError ScalarVal :=
  match v, t with
  | DbValue.null, _ => Except.error ConversionError.unexpectedNull
  | DbValue.int8 n, ScalarTy.tyInt8 => Except.ok (ScalarVal.sInt8 n)
  | DbValue.int8 n, ScalarTy.tyInt64 => Except.ok (ScalarVal.sInt64 n)
  | DbValue.int64 n, ScalarTy.tyInt64 => Except.ok (ScalarVal.sInt64 n)
  | DbValue.int64 n, ScalarTy.tyInt8 =>
      if -128 ≤ n ∧ n < 128 then Except.ok (ScalarVal.sInt8 n)
      else Except.error ConversionError.valueOutOfRange
  | DbValue.text s, ScalarTy.tyText => Except.ok (ScalarVal.sText s)
  | DbValue.boolean b, ScalarTy.tyBool => Except.ok (ScalarVal.sBool b)
  | _, _ => Except.error ConversionError.typeMismatch

/-- Modelled from the spec: the Field Visitor's conversion of one Value into a
(possibly optional) scalar target (§4.1/§4.2).  A null Value converting to an
optional target yields the empty state; otherwise the plain conversion runs. -/
def convertField (t : FieldTy) (v : DbValue) : Except ConversionError FieldVal :=
  match t with
  | FieldTy.plain s => (convertPlain s v).map FieldVal.fv
  | FieldTy.opt s =>
      match v with
      | DbValue.null => Except.ok FieldVal.fvNone
      | _ => (convertPlain s v).map FieldVal.fv

/-- A Row: an ordered sequence of Values plus the ordered list of column
names shared with the resultset (§3).  The `DeserializableRow` trait in
`src/de/deserializable_row.rs` is the interface to this entity. -/
structure Row where
  fieldnames : List String
  values : List DbValue
deriving Repr, DecidableEq

/-- `DeserializableRow::len`: the length of the row. -/
def Row.len (r : Row) : Nat := r.values.length

/-- `DeserializableRow::pop`: removes and returns the last value.  The Rust
method mutates the row and returns `Option<V>`; here it returns the popped
value (if any) together with the remaining row. -/
def Row.pop (r : Row) : Option DbValue × Row :=
  match r.values.getLast? with
  | none => (none, r)
  | some v => (some v, { r with values := r.values.dropLast })

/-- `DeserializableRow::last`: a reference to the last value. -/
def Row.last (r : Row) : Option DbValue := r.values.getLast?

/-- `DeserializableRow::get_fieldname`: the name of the column at the given
index, `none` when out of range. -/
def Row.get_fieldname (r : Row) (field_idx : Nat) : Option String :=
  r.fieldnames[field_idx]?

/-- `DeserializableRow::reverse_values`: reverses the order of the values;
called before deserialization of the row into a tuple starts, which uses
`pop()` to access individual values. -/
def Row.reverse_values (r : Row) : Row :=
  { r with values := r.values.reverse }

/-- A Resultset: an ordered sequence of rows sharing one column-metadata
definition (§3). -/
structure Resultset where
  fieldnames : List String
  rows : List (List DbValue)
deriving Repr, DecidableEq

/-- The rows of a resultset, each paired with the shared column metadata. -/
def Resultset.toRows (rs : Resultset) : List Row :=
  rs.rows.map (fun vs => { fieldnames := rs.fieldnames, values := vs })

/-- The resultset invariant (§3): every row has exactly as many values as
there are column names. -/
def Resultset.wellFormed (rs : Resultset) : Prop :=
  ∀ row ∈ rs.rows, row.length = rs.fieldnames.length

/-- Finds the zero-based position of a column name in the metadata. -/
def idxOf? (name : String) : List String → Option Nat
  | [] => none
  | n :: ns => if n = name then some 0 else (idxOf? name ns).map (· + 1)

/-- The shape a row-level target declares: a fixed-arity tuple, a named
record, or the single-scalar collapse (§4.3, design note §9: tagged request
object {Scalar, Tuple(arity), Record(field names)}). -/
inductive RowTarget where
  | tuple (tys : List FieldTy) : RowTarget
  | record (fields : List (String × FieldTy)) : RowTarget
  | single (ty : FieldTy) : RowTarget
deriving Repr, DecidableEq

/-- The value produced by converting one row. -/
inductive RowValue where
  | tuple (vs : List FieldVal) : RowValue
  | record (fields : List (String × FieldVal)) : RowValue
  | single (v : FieldVal) : RowValue
deriving Repr, DecidableEq

/-- Modelled from the spec: the tuple branch of the Row Visitor (§4.3,
realised by the missing `src/de/row_deserializer.rs`): values are popped
from the row's end in order, each going through the Field Visitor; the
row being exhausted before the tuple is filled, or values remaining after,
is `WrongArity`.  The row passed in is expected to have been reversed. -/
def popTuple : List FieldTy → Row → Except DeserError (List FieldVal)
  | [], r => if r.len = 0 then Except.ok [] else Except.error DeserError.wrongArity
  | t :: ts, r =>
    match r.pop with
    | (none, _) => Except.error DeserError.wrongArity
    | (some v, r1) =>
      match wrapConv (convertField t v) with
      | Except.error e => Except.error e
      | Except.ok fv =>
        match popTuple ts r1 with
        | Except.error e => Except.error e
        | Except.ok rest => Except.ok (fv :: rest)

/-- Modelled from the spec: the record branch of the Row Visitor (§4.3).
For each field name the target declares, the column with that name is
located via the row's column metadata (`UnknownColumn` if absent) and the
corresponding value goes through the Field Visitor.  The row passed in is
the reversed row (the engine consumes values from the row's end), so column
position `i` of the original declaration order lives at reversed position
`len - 1 - i`. -/
def recordFields : List (String × FieldTy) → Row → Except DeserError (List (String × FieldVal))
  | [], _ => Except.ok []
  | (name, ty) :: fs, r =>
    match idxOf? name r.fieldnames with
    | none => Except.error (DeserError.unknownColumn name)
    | some i =>
      match r.values[r.values.length - 1 - i]? with
      | none => Except.error DeserError.wrongArity
      | some v =>
        match wrapConv (convertField ty v) with
        | Except.error e => Except.error e
        | Except.ok fv =>
          match recordFields fs r with
          | Except.error e => Except.error e
          | Except.ok rest => Except.ok ((name, fv) :: rest)

/-- Modelled from the spec: the Row Visitor (§4.3, the missing
`src/de/row_deserializer.rs`).  Tuples and records first reverse the row's
value order exactly once (via `reverse_values`) and then consume values from
the row's end; the single-scalar collapse is permitted only when the row has
exactly one column, any other shape being `WrongArity`. -/
def deserializeRow (t : RowTarget) (r : Row) : Except DeserError RowValue :=
  match t with
  | RowTarget.tuple tys => (popTuple tys r.reverse_values).map RowValue.tuple
  | RowTarget.record fs => (recordFields fs r.reverse_values).map RowValue.record
  | RowTarget.single ty =>
    match r.values with
    | [v] => (wrapConv (convertField ty v)).map RowValue.single
    | _ => Except.error DeserError.wrongArity

/-- The shape a resultset-level target declares: a homogeneous sequence of a
row-level shape, or a bare row-level shape (§4.4). -/
inductive RsTarget where
  | seqOf (t : RowTarget) : RsTarget
  | bare (t : RowTarget) : RsTarget
deriving Repr, DecidableEq

/-- The value produced by converting a resultset. -/
inductive RsValue where
  | seq (vs : List RowValue) : RsValue
  | one (v : RowValue) : RsValue
deriving Repr, DecidableEq

/-- Converts each row in order, aborting the whole call at the first failing
row (no partial collection is returned, §7). -/
def mapRows (f : Row → Except DeserError RowValue) :
    List Row → Except DeserError (List RowValue)
  | [] => Except.ok []
  | r :: rest =>
    match f r with
    | Except.error e => Except.error e
    | Except.ok v =>
      match mapRows f rest with
      | Except.error e => Except.error e
      | Except.ok vs => Except.ok (v :: vs)

/-- Modelled from the spec: the Resultset Visitor (§4.4, the missing
`src/de/rs_deserializer.rs`).  The deserialization mode is decided purely
from the target's declared shape: a sequence target produces one element per
row in row order (zero rows yields the empty sequence); a bare target
requires exactly one row, any other row count being `WrongArity`. -/
def deserializeRs (t : RsTarget) (rs : Resultset) : Except DeserError RsValue :=
  match t with
  | RsTarget.seqOf rt => (mapRows (deserializeRow rt) rs.toRows).map RsValue.seq
  | RsTarget.bare rt =>
    match rs.toRows with
    | [r] => (deserializeRow rt r).map RsValue.one
    | _ => Except.error DeserError.wrongArity

/-- The scalar (single-field) conversion path, `Row::field_into(idx)` in the
tests / the "convert this single value into target scalar S" entry point
(§6): fetch the cell at the column index and run the Field Visitor on it. -/
def field_into (r : Row) (idx : Nat) (ty : FieldTy) : Except DeserError FieldVal :=
  match r.values[idx]? with
  | none => Except.error DeserError.wrongArity
  | some v => wrapConv (convertField ty v)

/-- `DeserializableRow::into_typed` (from `src/de/deserializable_row.rs`):
`Ok(serde::de::Deserialize::deserialize(&mut RowDeserializer::new(self))?)` —
runs the row deserializer on the row and converts a `DeserError` into the
driver's error type `E` through its `From<DeserError>` instance (the `?`
operator); a success is returned unchanged. -/
def into_typed {E : Type} (fromE : DeserError → E) (t : RowTarget) (r : Row) :
    Except E RowValue :=
  match deserializeRow t r with
  | Except.ok v => Except.ok v
  | Except.error e => Except.error (fromE e)

/-- Repeatedly pops values from the row's end until it is exhausted,
collecting them in pop order (fuelled by the row length). -/
def popAllAux : Nat → Row → List DbValue
  | 0, _ => []
  | n + 1, r =>
    match r.pop with
    | (none, _) => []
    | (some v, r1) => v :: popAllAux n r1

/-- The sequence of values obtained by popping a row to exhaustion. -/
def popAll (r : Row) : List DbValue := popAllAux r.len r

/-- Converting a list of values against a list of field targets strictly in
declaration order (first declared column first), with `WrongArity` on a
length mismatch.  This is the specification-side description of what the
reverse-then-pop tuple extraction must amount to. -/
def convertInDeclarationOrder : List FieldTy → List DbValue → Except DeserError (List FieldVal)
  | [], [] => Except.ok []
  | [], _ :: _ => Except.error DeserError.wrongArity
  | _ :: _, [] => Except.error DeserError.wrongArity
  | t :: ts, v :: vs =>
    match wrapConv (convertField t v) with
    | Except.error e => Except.error e
    | Except.ok fvv =>
      match convertInDeclarationOrder ts vs with
      | Except.error e => Except.error e
      | Except.ok rest => Except.ok (fvv :: rest)

/-- The record a row yields when every declared field is fetched individually
through the scalar path (`field_into` at the column located by name); fields
whose column is missing or whose conversion fails are given a placeholder,
which is irrelevant under the success hypotheses of the theorems using it. -/
def recordViaScalarPath (fieldnames : List String) (vs : List DbValue)
    (fields : List (String × FieldTy)) : List (String × FieldVal) :=
  fields.map fun p =>
    (p.1,
      match idxOf? p.1 fieldnames with
      | none => FieldVal.fvNone
      | some i =>
        match field_into { fieldnames := fieldnames, values := vs } i p.2 with
        | Except.ok v => v
        | Except.error _ => FieldVal.fvNone)

/-- Whether a declared field's column exists and its cell converts
successfully through the scalar path. -/
def scalarPathOk (fieldnames : List String) (vs : List DbValue)
    (p : String × FieldTy) : Bool :=
  match idxOf? p.1 fieldnames with
  | none => false
  | some i =>
    match field_into { fieldnames := fieldnames, values := vs } i p.2 with
    | Except.ok _ => true
    | Except.error _ => false

/-- Reshapes the result of a single-scalar row conversion into the
corresponding single-field record over the given column name. -/
def singleToRecord (name : String) : RowValue → RowValue
  | RowValue.single v => RowValue.record [(name, v)]
  | x => x

/-- Reshapes a sequence of single-scalar row results into the corresponding
sequence of single-field records. -/
def reshapeSeq (name : String) : RsValue → RsValue
  | RsValue.seq vs => RsValue.seq (vs.map (singleToRecord name))
  | x => x

theorem idxOf?_lt {name : String} :
    ∀ {ns : List String} {i : Nat}, idxOf? name ns = some i → i < ns.length := by
  intro ns
  induction ns with
  | nil => intro i h; simp [idxOf?] at h
  | cons n ns ih =>
    intro i h
    rw [idxOf?] at h
    by_cases hn : n = name
    · rw [if_pos hn] at h
      cases h
      simp
    · rw [if_neg hn] at h
      cases ho : idxOf? name ns with
      | none => rw [ho] at h; simp at h
      | some j =>
        rw [ho] at h
        have hj : j + 1 = i := by simpa using h
        have := ih ho
        simp only [List.length_cons]
        omega

theorem bare_arity_err (rs : Resultset) (t : RowTarget)
    (h : rs.rows.length ≠ 1) :
    deserializeRs (RsTarget.bare t) rs = Except.error DeserError.wrongArity := by
  cases hr : rs.rows with
  | nil => simp [deserializeRs, Resultset.toRows, hr]
  | cons a tail =>
    cases tail with
    | nil => exact absurd (by simp [hr]) h
    | cons b tail2 => simp [deserializeRs, Resultset.toRows, hr]

/-- Claim C3: For every resultset whose row count is not 1, converting it into a
bare (non-sequence) target fails with the `WrongArity` kind of `DeserError`;
and converting a zero-row resultset into a sequence target succeeds with the
empty sequence, not an error. -/
theorem c3_bare_arity_and_empty_seq (rs : Resultset) (t : RowTarget)
    (h : rs.rows.length ≠ 1) :
    deserializeRs (RsTarget.bare t) rs = Except.error DeserError.wrongArity ∧
    (rs.rows = [] →
      deserializeRs (RsTarget.seqOf t) rs = Except.ok (RsValue.seq [])) := by
  refine ⟨bare_arity_err rs t h, fun h0 => ?_⟩
  simp [deserializeRs, Resultset.toRows, h0, mapRows, Except.map]

theorem c3_witness :
    (Resultset.mk ["f1"] []).rows.length ≠ 1 ∧
    deserializeRs (RsTarget.bare (RowTarget.single (FieldTy.plain ScalarTy.tyInt8)))
        (Resultset.mk ["f1"] []) = Except.error DeserError.wrongArity ∧
    deserializeRs (RsTarget.seqOf (RowTarget.single (FieldTy.plain ScalarTy.tyInt8)))
        (Resultset.mk ["f1"] []) = Except.ok (RsValue.seq []) := by
  refine ⟨by decide, ?_⟩
  have h := c3_bare_arity_and_empty_seq (Resultset.mk ["f1"] [])
    (RowTarget.single (FieldTy.plain ScalarTy.tyInt8)) (by decide)
  exact ⟨h.1, h.2 rfl⟩

/-- Claim C4: The deserialization mode is a function of the target's declared
shape only, never of the runtime row count: a bare scalar target requires
exactly one row with exactly one column; any other table shape (for example,
five rows requested as a bare scalar) fails with `WrongArity` and never
silently converts just the first row. -/
theorem c4_mode_by_shape (rs : Resultset) (ty : FieldTy) :
    (rs.rows.length ≠ 1 →
      deserializeRs (RsTarget.bare (RowTarget.single ty)) rs
        = Except.error DeserError.wrongArity) ∧
    (∀ row, rs.rows = [row] → row.length ≠ 1 →
      deserializeRs (RsTarget.bare (RowTarget.single ty)) rs
        = Except.error DeserError.wrongArity) := by
  constructor
  · intro h
    exact bare_arity_err rs _ h
  · intro row hrow hlen
    cases hv : row with
    | nil =>
      simp [deserializeRs, Resultset.toRows, hrow, deserializeRow, hv, Except.map]
    | cons v tail =>
      cases tail with
      | nil => exact absurd (by simp [hv]) hlen
      | cons w tail2 =>
        simp [deserializeRs, Resultset.toRows, hrow, deserializeRow, hv, Except.map]

theorem c4_witness :
    (Resultset.mk ["f1"]
        [[DbValue.int8 1], [DbValue.int8 2], [DbValue.int8 3],
         [DbValue.int8 4], [DbValue.int8 5]]).rows.length ≠ 1 ∧
    deserializeRs (RsTarget.bare (RowTarget.single (FieldTy.plain ScalarTy.tyInt8)))
        (Resultset.mk ["f1"]
          [[DbValue.int8 1], [DbValue.int8 2], [DbValue.int8 3],
           [DbValue.int8 4], [DbValue.int8 5]])
      = Except.error DeserError.wrongArity :=
  ⟨by decide,
    (c4_mode_by_shape
      (Resultset.mk ["f1"]
        [[DbValue.int8 1], [DbValue.int8 2], [DbValue.int8 3],
         [DbValue.int8 4], [DbValue.int8 5]])
      (FieldTy.plain ScalarTy.tyInt8)).1 (by decide)⟩

/-- Claim C5: For every null/absent Value: conversion into a non-optional scalar
target fails with `UnexpectedNull`, while conversion into the optional
wrapping of the same scalar target succeeds with the empty state. -/
theorem c5_null_vs_optional (s : ScalarTy) :
    convertField (FieldTy.plain s) DbValue.null
      = Except.error ConversionError.unexpectedNull ∧
    convertField (FieldTy.opt s) DbValue.null = Except.ok FieldVal.fvNone := by
  cases s <;> exact ⟨rfl, rfl⟩

/-- Claim C7: Every scalar-level `ConversionError` crossing the engine boundary
is wrapped into a `DeserError` (the wrapping the `From` instance performs),
and the wrapping is lossless: the underlying `ConversionError` is recoverable
unchanged from the wrapped `DeserError`. -/
theorem c7_lossless_error_wrapping (c : ConversionError) :
    DeserError.unwrapConversionError (DeserError.fromConversionError c) = some c ∧
    wrapConv (Except.error c : Except ConversionError FieldVal)
      = Except.error (DeserError.fromConversionError c) :=
  ⟨rfl, rfl⟩

/-- Claim C9: The row access operations are total at the trait interface: `pop`
and `last` return `none` exactly when the row is empty, and `get_fieldname`
returns `none` exactly when the field index is out of range; none of them can
fail in any other way. -/
theorem c9_row_access_total (r : Row) :
    ((r.pop).1 = none ↔ r.len = 0) ∧
    (r.last = none ↔ r.len = 0) ∧
    (∀ i, r.get_fieldname i = none ↔ r.fieldnames.length ≤ i) := by
  refine ⟨?_, ?_, ?_⟩
  · constructor
    · intro h
      cases hg : r.values.getLast? with
      | none =>
        simp [Row.len, List.length_eq_zero, ← List.getLast?_eq_none_iff, hg]
      | some v => simp [Row.pop, hg] at h
    · intro h
      have hnil : r.values = [] := List.length_eq_zero.mp h
      simp [Row.pop, hnil]
  · simp [Row.last, Row.len, List.getLast?_eq_none_iff, List.length_eq_zero]
  · intro i
    simp [Row.get_fieldname, List.getElem?_eq_none_iff]

theorem into_typed_eq {E : Type} (fromE : DeserError → E) (t : RowTarget) (r : Row) :
    into_typed fromE t r
      = match deserializeRow t r with
        | Except.ok v => Except.ok v
        | Except.error e => Except.error (fromE e) := rfl

/-- Claim C10: `DeserializableRow::into_typed` returns `Ok(t)` exactly when the
row deserializer succeeds with `t`, and returns `Err` of exactly the driver
error obtained by converting the `DeserError` through the associated
`From<DeserError>` conversion; no other error is ever produced. -/
theorem c10_into_typed_exact (E : Type) (fromE : DeserError → E)
    (t : RowTarget) (r : Row) :
    (∀ v, into_typed fromE t r = Except.ok v ↔ deserializeRow t r = Except.ok v) ∧
    (∀ err, into_typed fromE t r = Except.error err ↔
      ∃ e, deserializeRow t r = Except.error e ∧ err = fromE e) := by
  cases hd : deserializeRow t r with
  | ok v0 =>
    constructor
    · intro v
      simp [into_typed_eq, hd]
    · intro err
      simp [into_typed_eq, hd]
  | error e0 =>
    constructor
    · intro v
      simp [into_typed_eq, hd]
    · intro err
      simp [into_typed_eq, hd]
      exact eq_comm

theorem pop_reverse_cons (nm : List String) (v : DbValue) (vs : List DbValue) :
    (Row.reverse_values { fieldnames := nm, values := v :: vs }).pop
      = (some v, { fieldnames := nm, values := vs.reverse }) := by
  simp [Row.reverse_values, Row.pop, List.reverse_cons, List.getLast?_concat,
    List.dropLast_concat]

theorem popAllAux_reverse (nm : List String) (vs : List DbValue) :
    popAllAux vs.length (Row.reverse_values { fieldnames := nm, values := vs })
      = vs := by
  induction vs with
  | nil => rfl
  | cons v vs ih =>
    show popAllAux (vs.length + 1) _ = _
    rw [popAllAux, pop_reverse_cons]
    exact congrArg (v :: ·) ih

theorem popTuple_reverse (tys : List FieldTy) :
    ∀ (nm : List String) (vs : List DbValue),
      popTuple tys (Row.reverse_values { fieldnames := nm, values := vs })
        = convertInDeclarationOrder tys vs := by
  induction tys with
  | nil =>
    intro nm vs
    cases vs with
    | nil => rfl
    | cons v vs =>
      simp [popTuple, convertInDeclarationOrder, Row.reverse_values, Row.len]
  | cons t ts ih =>
    intro nm vs
    cases vs with
    | nil => rfl
    | cons v vs =>
      rw [popTuple, pop_reverse_cons, convertInDeclarationOrder]
      have hrec : ({ fieldnames := nm, values := vs.reverse } : Row)
          = Row.reverse_values { fieldnames := nm, values := vs } := rfl
      cases hc : wrapConv (convertField t v) with
      | error e => simp [hc]
      | ok fvv => simp [hc, hrec, ih nm vs]

/-- Claim C6: Before tuple extraction the row's value order is reversed exactly
once via `reverse_values`, and the engine then consumes values by popping
from the row's end: the first pop of the reversed row yields the logically
first declared column, popping to exhaustion yields all columns in
declaration order, and the tuple conversion of a row equals the conversion
of its values strictly in declaration order. -/
theorem c6_reverse_then_pop (nm : List String) (vs : List DbValue)
    (tys : List FieldTy) :
    (Row.reverse_values { fieldnames := nm, values := vs }).pop.1 = vs.head? ∧
    popAll (Row.reverse_values { fieldnames := nm, values := vs }) = vs ∧
    deserializeRow (RowTarget.tuple tys) { fieldnames := nm, values := vs }
      = (convertInDeclarationOrder tys vs).map RowValue.tuple := by
  refine ⟨?_, ?_, ?_⟩
  · cases vs with
    | nil => rfl
    | cons v vs => rw [pop_reverse_cons]; rfl
  · show popAllAux _ _ = _
    have hlen : (Row.reverse_values { fieldnames := nm, values := vs }).len
        = vs.length := by
      simp [Row.reverse_values, Row.len]
    rw [hlen, popAllAux_reverse]
  · rw [deserializeRow, popTuple_reverse]

/-- Claim C2: For every resultset with exactly one row, converting it into a
bare target succeeds exactly when converting it into the sequence target
does, and the bare result is the single element of the sequence result. -/
theorem c2_bare_eq_singleton_seq (rs : Resultset) (t : RowTarget)
    (vs : List RowValue) (h1 : rs.rows.length = 1)
    (h2 : deserializeRs (RsTarget.seqOf t) rs = Except.ok (RsValue.seq vs)) :
    ∃ v, vs = [v] ∧
      deserializeRs (RsTarget.bare t) rs = Except.ok (RsValue.one v) := by
  obtain ⟨row, hrow⟩ := List.length_eq_one.mp h1
  rw [deserializeRs] at h2
  cases hd : deserializeRow t { fieldnames := rs.fieldnames, values := row } with
  | error e =>
    rw [show rs.toRows = [{ fieldnames := rs.fieldnames, values := row }] by
          simp [Resultset.toRows, hrow]] at h2
    rw [mapRows, hd] at h2
    simp [Except.map] at h2
  | ok v =>
    refine ⟨v, ?_, ?_⟩
    · rw [show rs.toRows = [{ fieldnames := rs.fieldnames, values := row }] by
            simp [Resultset.toRows, hrow]] at h2
      rw [mapRows, hd, mapRows] at h2
      simp [Except.map] at h2
      exact h2.symm
    · rw [deserializeRs,
        show rs.toRows = [{ fieldnames := rs.fieldnames, values := row }] by
          simp [Resultset.toRows, hrow]]
      simp [hd, Except.map]

theorem c2_witness :
    (Resultset.mk ["f1"] [[DbValue.int8 5]]).rows.length = 1 ∧
    deserializeRs (RsTarget.seqOf (RowTarget.single (FieldTy.plain ScalarTy.tyInt8)))
        (Resultset.mk ["f1"] [[DbValue.int8 5]])
      = Except.ok (RsValue.seq [RowValue.single (FieldVal.fv (ScalarVal.sInt8 5))]) ∧
    ∃ v, [RowValue.single (FieldVal.fv (ScalarVal.sInt8 5))] = [v] ∧
      deserializeRs (RsTarget.bare (RowTarget.single (FieldTy.plain ScalarTy.tyInt8)))
          (Resultset.mk ["f1"] [[DbValue.int8 5]]) = Except.ok (RsValue.one v) :=
  ⟨rfl, rfl,
    c2_bare_eq_singleton_seq (Resultset.mk ["f1"] [[DbValue.int8 5]])
      (RowTarget.single (FieldTy.plain ScalarTy.tyInt8))
      [RowValue.single (FieldVal.fv (ScalarVal.sInt8 5))] rfl rfl⟩

theorem mapRows_ok (f : Row → Except DeserError RowValue) (g : Row → RowValue) :
    ∀ (l : List Row), (∀ r ∈ l, f r = Except.ok (g r)) →
      mapRows f l = Except.ok (l.map g) := by
  intro l
  induction l with
  | nil => intro _; rfl
  | cons r rest ih =>
    intro h
    rw [mapRows, h r (List.mem_cons_self _ _),
      ih (fun a ha => h a (List.mem_cons_of_mem _ ha))]
    rfl

theorem recordFields_scalar_path (fieldnames : List String) (vs : List DbValue)
    (hlen : vs.length = fieldnames.length) :
    ∀ (fields : List (String × FieldTy)),
      (∀ p ∈ fields, scalarPathOk fieldnames vs p = true) →
      recordFields fields
          (Row.reverse_values { fieldnames := fieldnames, values := vs })
        = Except.ok (recordViaScalarPath fieldnames vs fields) := by
  intro fields
  induction fields with
  | nil => intro _; rfl
  | cons p ps ih =>
    intro hok
    obtain ⟨name, ty⟩ := p
    have hp := hok (name, ty) (List.mem_cons_self _ _)
    have htail := fun q hq => hok q (List.mem_cons_of_mem _ hq)
    simp only [scalarPathOk] at hp
    cases hidx : idxOf? name fieldnames with
    | none => rw [hidx] at hp; simp at hp
    | some i =>
      rw [hidx] at hp
      cases hfi : field_into { fieldnames := fieldnames, values := vs } i ty with
      | error e => simp only [hfi] at hp; simp at hp
      | ok fvv =>
        have hi : i < fieldnames.length := idxOf?_lt hidx
        have hiv : i < vs.length := by omega
        have hrev : vs.reverse[vs.length - 1 - i]? = vs[i]? := by
          rw [List.getElem?_reverse (by omega : vs.length - 1 - i < vs.length)]
          congr 1
          omega
        cases hvi : vs[i]? with
        | none =>
          rw [field_into] at hfi
          simp only [hvi] at hfi
          exact absurd hfi (by simp)
        | some v =>
          have hwc : wrapConv (convertField ty v) = Except.ok fvv := by
            rw [field_into] at hfi
            simpa only [hvi] using hfi
          have ihx := ih htail
          simp only [Row.reverse_values] at ihx
          simp only [recordFields, Row.reverse_values, List.length_reverse,
            hidx, hrev, hvi, hwc, ihx, recordViaScalarPath, List.map, hfi]

/-- Claim C1: For every well-formed resultset and record target whose fields all
resolve (the named column exists and its cell converts through the scalar
path), converting the resultset into a sequence of records succeeds, yields
one record per row in row order — so the sequence length equals the row
count — and every record field carries exactly the value obtained by
converting that row's cell for that column individually through the scalar
(single-field) conversion path. -/
theorem c1_seq_record_vs_scalar_path (rs : Resultset)
    (fields : List (String × FieldTy))
    (hwf : ∀ row ∈ rs.rows, row.length = rs.fieldnames.length)
    (hok : ∀ row ∈ rs.rows, ∀ p ∈ fields,
      scalarPathOk rs.fieldnames row p = true) :
    deserializeRs (RsTarget.seqOf (RowTarget.record fields)) rs
      = Except.ok (RsValue.seq (rs.rows.map
          (fun row =>
            RowValue.record (recordViaScalarPath rs.fieldnames row fields)))) ∧
    (rs.rows.map
        (fun row =>
          RowValue.record (recordViaScalarPath rs.fieldnames row fields))).length
      = rs.rows.length := by
  constructor
  · rw [deserializeRs]
    have hmap : mapRows (deserializeRow (RowTarget.record fields)) rs.toRows
        = Except.ok (rs.toRows.map (fun r =>
            RowValue.record (recordViaScalarPath r.fieldnames r.values fields))) := by
      apply mapRows_ok
      intro r hr
      rw [Resultset.toRows] at hr
      obtain ⟨row, hrow, rfl⟩ := List.mem_map.mp hr
      rw [deserializeRow,
        recordFields_scalar_path rs.fieldnames row (hwf row hrow) fields
          (hok row hrow)]
      rfl
    rw [hmap]
    simp [Resultset.toRows, Except.map, List.map_map, Function.comp]
  · simp

theorem c1_witness :
    (∀ row ∈ (Resultset.mk ["f1", "f2"]
        [[DbValue.int8 1, DbValue.text "a"],
         [DbValue.null, DbValue.text "b"]]).rows,
      row.length = (Resultset.mk ["f1", "f2"]
        [[DbValue.int8 1, DbValue.text "a"],
         [DbValue.null, DbValue.text "b"]]).fieldnames.length) ∧
    (∀ row ∈ (Resultset.mk ["f1", "f2"]
        [[DbValue.int8 1, DbValue.text "a"],
         [DbValue.null, DbValue.text "b"]]).rows,
      ∀ p ∈ [("f1", FieldTy.opt ScalarTy.tyInt8),
             ("f2", FieldTy.plain ScalarTy.tyText)],
        scalarPathOk ["f1", "f2"] row p = true) ∧
    (deserializeRs
        (RsTarget.seqOf (RowTarget.record
          [("f1", FieldTy.opt ScalarTy.tyInt8),
           ("f2", FieldTy.plain ScalarTy.tyText)]))
        (Resultset.mk ["f1", "f2"]
          [[DbValue.int8 1, DbValue.text "a"],
           [DbValue.null, DbValue.text "b"]])
      = Except.ok (RsValue.seq ((Resultset.mk ["f1", "f2"]
          [[DbValue.int8 1, DbValue.text "a"],
           [DbValue.null, DbValue.text "b"]]).rows.map
          (fun row => RowValue.record (recordViaScalarPath ["f1", "f2"] row
            [("f1", FieldTy.opt ScalarTy.tyInt8),
             ("f2", FieldTy.plain ScalarTy.tyText)])))) ∧
     ((Resultset.mk ["f1", "f2"]
          [[DbValue.int8 1, DbValue.text "a"],
           [DbValue.null, DbValue.text "b"]]).rows.map
          (fun row => RowValue.record (recordViaScalarPath ["f1", "f2"] row
            [("f1", FieldTy.opt ScalarTy.tyInt8),
             ("f2", FieldTy.plain ScalarTy.tyText)]))).length
       = (Resultset.mk ["f1", "f2"]
          [[DbValue.int8 1, DbValue.text "a"],
           [DbValue.null, DbValue.text "b"]]).rows.length) :=
  ⟨by decide, by decide,
    c1_seq_record_vs_scalar_path
      (Resultset.mk ["f1", "f2"]
        [[DbValue.int8 1, DbValue.text "a"],
         [DbValue.null, DbValue.text "b"]])
      [("f1", FieldTy.opt ScalarTy.tyInt8),
       ("f2", FieldTy.plain ScalarTy.tyText)]
      (by decide) (by decide)⟩

theorem row_single_vs_record (name : String) (ty : FieldTy)
    (vs : List DbValue) (hlen : vs.length = 1) :
    deserializeRow (RowTarget.record [(name, ty)])
        { fieldnames := [name], values := vs }
      = (deserializeRow (RowTarget.single ty)
          { fieldnames := [name], values := vs }).map (singleToRecord name) := by
  obtain ⟨v, rfl⟩ := List.length_eq_one.mp hlen
  cases hc : wrapConv (convertField ty v) with
  | error e =>
    simp [deserializeRow, recordFields, idxOf?, Row.reverse_values, hc,
      Except.map]
  | ok fvv =>
    simp [deserializeRow, recordFields, idxOf?, Row.reverse_values, hc,
      Except.map, singleToRecord]

theorem mapRows_map_comm (f1 f2 : Row → Except DeserError RowValue)
    (g : RowValue → RowValue) :
    ∀ (l : List Row), (∀ r ∈ l, f2 r = (f1 r).map g) →
      mapRows f2 l = (mapRows f1 l).map (List.map g) := by
  intro l
  induction l with
  | nil => intro _; rfl
  | cons r rest ih =>
    intro h
    rw [mapRows, mapRows, h r (List.mem_cons_self _ _),
      ih (fun a ha => h a (List.mem_cons_of_mem _ ha))]
    cases f1 r with
    | error e => rfl
    | ok v =>
      cases mapRows f1 rest with
      | error e => rfl
      | ok vs => rfl

/-- Claim C8: For every resultset in which every row has exactly one column,
converting it into a sequence of bare scalars and converting it into a
sequence of single-field records over the same data agree cell-by-cell: the
record sequence is exactly the scalar sequence with each scalar rewrapped as
the corresponding single-field record (and the two conversions fail
identically). -/
theorem c8_seq_scalar_vs_single_field_record (name : String) (ty : FieldTy)
    (rs : Resultset) (hfn : rs.fieldnames = [name])
    (hrows : ∀ row ∈ rs.rows, row.length = 1) :
    deserializeRs (RsTarget.seqOf (RowTarget.record [(name, ty)])) rs
      = (deserializeRs (RsTarget.seqOf (RowTarget.single ty)) rs).map
          (reshapeSeq name) := by
  rw [deserializeRs, deserializeRs]
  have hcomm : mapRows (deserializeRow (RowTarget.record [(name, ty)])) rs.toRows
      = (mapRows (deserializeRow (RowTarget.single ty)) rs.toRows).map
          (List.map (singleToRecord name)) := by
    apply mapRows_map_comm
    intro r hr
    rw [Resultset.toRows] at hr
    obtain ⟨row, hrow, rfl⟩ := List.mem_map.mp hr
    rw [hfn]
    exact row_single_vs_record name ty row (hrows row hrow)
  rw [hcomm]
  cases mapRows (deserializeRow (RowTarget.single ty)) rs.toRows with
  | error e => rfl
  | ok vs => rfl

theorem c8_witness :
    (Resultset.mk ["f1"] [[DbValue.int8 1], [DbValue.null]]).fieldnames = ["f1"] ∧
    (∀ row ∈ (Resultset.mk ["f1"] [[DbValue.int8 1], [DbValue.null]]).rows,
      row.length = 1) ∧
    deserializeRs
        (RsTarget.seqOf (RowTarget.record [("f1", FieldTy.opt ScalarTy.tyInt8)]))
        (Resultset.mk ["f1"] [[DbValue.int8 1], [DbValue.null]])
      = (deserializeRs
          (RsTarget.seqOf (RowTarget.single (FieldTy.opt ScalarTy.tyInt8)))
          (Resultset.mk ["f1"] [[DbValue.int8 1], [DbValue.null]])).map
          (reshapeSeq "f1") :=
  ⟨rfl, by decide,
    c8_seq_scalar_vs_single_field_record "f1" (FieldTy.opt ScalarTy.tyInt8)
      (Resultset.mk ["f1"] [[DbValue.int8 1], [DbValue.null]]) rfl (by decide)⟩
